import Mathlib

/-!
Verification of the spreadsheet-ingestion pipeline in
`combine_excel_sheets.py` (function `load_excel_files`).

The embedding models a pandas `DataFrame` as a `Table`: an ordered list of
column names together with a list of rows, each row a positional list of
cells.  The filesystem seen by the pipeline is an association list from
file names to per-file outcomes (`FileData`): a file either fails to open
(`pd.ExcelFile` raising, which covers missing, corrupt and unsupported
files) or opens to an ordered list of worksheets, each of which either
parses to a `Table` or fails to parse.  `xl.parse(sheet_name=None)` parses
all worksheets in one call and raises on the first failing worksheet; this
is modelled by `parseAll`, which returns an error as soon as any worksheet
of the workbook fails.
-/

/-- A spreadsheet cell: a string, an integer, or a missing value (NaN). -/
inductive Cell where
  | str : String → Cell
  | int : Int → Cell
  | null : Cell
deriving DecidableEq, Repr

/-- Python `str(value)` as applied to a cell (`str(np.nan)` is `"nan"`). -/
def cellStr : Cell → String
  | Cell.str s => s
  | Cell.int n => toString n
  | Cell.null => "nan"

/-- Python `str.strip()`: drop leading and trailing whitespace. -/
def pyStrip (s : String) : String :=
  String.mk (((s.data.dropWhile Char.isWhitespace).reverse.dropWhile Char.isWhitespace).reverse)

/-- Python `str.lower()`: lower-case every character. -/
def pyLower (s : String) : String := String.mk (s.data.map Char.toLower)

/-- A pandas `DataFrame`: ordered column names and positional rows. -/
structure Table where
  cols : List String
  rows : List (List Cell)
deriving DecidableEq, Repr

/-- Rectangularity: every row has one cell per column.  pandas guarantees
this for every `DataFrame` it produces. -/
def Table.Rect (df : Table) : Prop := ∀ r ∈ df.rows, r.length = df.cols.length

instance (df : Table) : Decidable df.Rect := List.decidableBAll _ df.rows

/-- Index of the first column with the given name (label lookup). -/
def colIdx? (c : String) : List String → Option Nat
  | [] => none
  | x :: xs => if x = c then some 0 else (colIdx? c xs).map (fun j => j + 1)

/-- Value of a positional row at a named column; `Cell.null` when the
column is absent (used both for label lookup and for null-filling during
concatenation). -/
def rowCell (cols : List String) (row : List Cell) (c : String) : Cell :=
  ((colIdx? c cols).map (fun j => row.getD j Cell.null)).getD Cell.null

/-- `df.iloc[i][c]`: cell of row `i` at column `c`. -/
def getCell (df : Table) (i : Nat) (c : String) : Cell :=
  rowCell df.cols (df.rows.getD i []) c

/-- Lines 58-63 of `combine_excel_sheets.py`:
if `not df.empty and 'CA' in df.columns` and
`str(df.iloc[0]['CA']).strip().lower() == "deg"`, drop the first row and
reindex (`df.iloc[1:].reset_index(drop=True)`).  `df.empty` holds iff the
row axis or the column axis is empty; since `"CA" ∈ df.cols` already forces
a non-empty column axis, the guard reduces to the one written here. -/
def normalizeTable (df : Table) : Table :=
  if df.rows ≠ [] ∧ "CA" ∈ df.cols then
    if pyLower (pyStrip (cellStr (getCell df 0 "CA"))) = "deg" then
      Table.mk df.cols df.rows.tail
    else df
  else df

/-- The folded first `CA` value `str(df.iloc[0]['CA']).strip().lower()`. -/
def caFirstFolded (df : Table) : String :=
  pyLower (pyStrip (cellStr (getCell df 0 "CA")))

/-- `df[c] = v` for a scalar `v`: overwrite the column if it exists,
otherwise append it, filling every row with `v`. -/
def setColumn (df : Table) (c : String) (v : Cell) : Table :=
  match colIdx? c df.cols with
  | some j => Table.mk df.cols (df.rows.map (fun r => r.set j v))
  | none => Table.mk (df.cols ++ [c]) (df.rows.map (fun r => r ++ [v]))

/-- Lines 66-67: `df['source_file'] = file_name; df['sheet_name'] = sheet_name`. -/
def tagTable (df : Table) (fileNm sheetNm : String) : Table :=
  setColumn (setColumn df "source_file" (Cell.str fileNm)) "sheet_name" (Cell.str sheetNm)

/-- The outcome of parsing one worksheet of an opened workbook. -/
inductive SheetResult where
  | parsed : Table → SheetResult
  | parseFail : SheetResult
deriving DecidableEq, Repr

/-- The outcome of opening one candidate file: `pd.ExcelFile` raises
(missing, corrupt or unsupported file) or yields the workbook's worksheets
in source-declared order. -/
inductive FileData where
  | openFail : FileData
  | opened : List (String × SheetResult) → FileData
deriving DecidableEq, Repr

/-- The directory contents: file name to outcome; absent names fail to open. -/
abbrev Fs := List (String × FileData)

def lookupFile (fsys : Fs) (fn : String) : FileData :=
  match fsys.find? (fun p => p.1 == fn) with
  | some p => p.2
  | none => FileData.openFail

/-- `xl.parse(sheet_name=None)`: parse every worksheet in one call; the
first worksheet that fails to parse raises, losing the whole workbook. -/
def parseAll : List (String × SheetResult) → Except Unit (List (String × Table))
  | [] => Except.ok []
  | (_, SheetResult.parseFail) :: _ => Except.error ()
  | (sn, SheetResult.parsed t) :: rest =>
    match parseAll rest with
    | Except.ok l => Except.ok ((sn, t) :: l)
    | Except.error e => Except.error e

/-- Line 32: `if i == 15: continue` (the known-corrupted file). -/
def excludedIndices : List Nat := [15]

/-- Python `f"{i:03d}"`: decimal digits zero-padded to width at least 3. -/
def pad3 (i : Nat) : String :=
  let s := toString i
  if s.length < 3 then String.mk (List.replicate (3 - s.length) '0') ++ s else s

/-- Line 36: `file_name = f"{prefix}{i:03d}.xlsx"`. -/
def fileName (pfx : String) (i : Nat) : String := pfx ++ pad3 i ++ ".xlsx"

/-- Lines 30-34: the indices `range(start, end + 1)` minus the exclusions. -/
def candidateIndices (s e : Nat) : List Nat :=
  ((List.range (e + 1 - s)).map (fun k => s + k)).filter
    (fun i => decide (i ∉ excludedIndices))

/-- The candidate file names attempted by the loop, in order. -/
def candidateFiles (pfx : String) (s e : Nat) : List String :=
  (candidateIndices s e).map (fileName pfx)

/-- Lines 40-68 for one index `i`: open the file (skip it on failure),
parse all of its worksheets (skip the file on failure), then normalize and
tag each worksheet's table. -/
def processFile (fsys : Fs) (pfx : String) (i : Nat) : List Table :=
  match lookupFile fsys (fileName pfx i) with
  | FileData.openFail => []
  | FileData.opened sheets =>
    match parseAll sheets with
    | Except.error _ => []
    | Except.ok parsedSheets =>
      parsedSheets.map (fun p => tagTable (normalizeTable p.2) (fileName pfx i) p.1)

/-- The `dataframes` list accumulated by the loop, in production order. -/
def loadedTables (fsys : Fs) (pfx : String) (s e : Nat) : List Table :=
  (candidateIndices s e).flatMap (processFile fsys pfx)

/-- Columns of `acc` followed by the columns of `cs` not already present
(first-appearance order, as `pd.concat` builds the united column axis). -/
def addCols (acc : List String) (cs : List String) : List String :=
  acc ++ cs.filter (fun c => decide (c ∉ acc))

def unionColsAux (acc : List String) : List Table → List String
  | [] => acc
  | df :: rest => unionColsAux (addCols acc df.cols) rest

/-- The united column axis of `pd.concat`: first-appearance order across
the input tables. -/
def unionCols (dfs : List Table) : List String := unionColsAux [] dfs

/-- Reindex one positional row from its own columns onto the united column
axis; columns the source table lacks become `Cell.null` (NaN). -/
def alignRow (srcCols : List String) (row : List Cell) (allCols : List String) : List Cell :=
  allCols.map (fun c => rowCell srcCols row c)

/-- `pd.concat(dataframes, ignore_index=True)`: union of the column axes,
rows in concatenation order, null-filled on missing columns. -/
def concatTables (dfs : List Table) : Table :=
  Table.mk (unionCols dfs)
    (dfs.flatMap (fun df => df.rows.map (fun r => alignRow df.cols r (unionCols dfs))))

/-- Lines 28-79: the whole of `load_excel_files`, as a function of the
directory contents `fsys`. -/
def loadExcelFiles (fsys : Fs) (pfx : String) (s e : Nat) : Table :=
  let dfs := loadedTables fsys pfx s e
  if dfs.isEmpty then Table.mk [] [] else concatTables dfs

/-! ### List-level helper lemmas -/

lemma list_getD_mem {α : Type} (l : List α) (k : Nat) (d : α) (h : k < l.length) :
    l.getD k d ∈ l := by
  rw [List.getD_eq_getElem l d h]
  exact List.getElem_mem h

lemma list_mem_getD {α : Type} {l : List α} {a : α} (d : α) (h : a ∈ l) :
    ∃ k, k < l.length ∧ l.getD k d = a := by
  rw [List.mem_iff_getElem] at h
  obtain ⟨i, hi, rfl⟩ := h
  exact ⟨i, hi, by rw [List.getD_eq_getElem _ _ hi]⟩

lemma list_getD_set_self {α : Type} (l : List α) (j : Nat) (v d : α) (h : j < l.length) :
    (l.set j v).getD j d = v := by
  rw [List.getD_eq_getElem?_getD, List.getElem?_set_self]
  · simp
  · simpa using h

lemma list_getD_set_ne {α : Type} (l : List α) (j k : Nat) (v d : α) (h : j ≠ k) :
    (l.set j v).getD k d = l.getD k d := by
  simp [List.getD_eq_getElem?_getD, List.getElem?_set_ne h]

lemma list_getD_map {α β : Type} (l : List α) (f : α → β) (k : Nat) (d : β) (d2 : α)
    (h : k < l.length) : (l.map f).getD k d = f (l.getD k d2) := by
  rw [List.getD_eq_getElem?_getD, List.getElem?_map, List.getD_eq_getElem?_getD,
    List.getElem?_eq_getElem h]
  simp

lemma list_getD_append_left {α : Type} (l l2 : List α) (k : Nat) (d : α) (h : k < l.length) :
    (l ++ l2).getD k d = l.getD k d := by
  rw [List.getD_eq_getElem?_getD, List.getD_eq_getElem?_getD, List.getElem?_append_left h]

lemma list_getD_append_len {α : Type} (l : List α) (v d : α) :
    (l ++ [v]).getD l.length d = v := by
  rw [List.getD_eq_getElem?_getD, List.getElem?_append_right (Nat.le_refl _)]
  simp

lemma list_getD_default {α : Type} (l : List α) (k : Nat) (d : α) (h : ¬ k < l.length) :
    l.getD k d = d := by
  rw [List.getD_eq_getElem?_getD, List.getElem?_eq_none (Nat.le_of_not_lt h)]
  rfl

lemma length_filter_add_not {α : Type} (l : List α) (p : α → Bool) :
    (l.filter p).length + (l.filter (fun a => !(p a))).length = l.length := by
  induction l with
  | nil => rfl
  | cons x xs ih =>
    cases hx : p x <;> simp [List.filter_cons, hx] <;> omega

lemma flatMap_eq_filter_flatMap {α β : Type} (l : List α) (f : α → List β) (p : α → Bool)
    (h : ∀ x ∈ l, p x = false → f x = []) :
    l.flatMap f = (l.filter p).flatMap f := by
  induction l with
  | nil => rfl
  | cons x xs ih =>
    rw [List.flatMap_cons, List.filter_cons]
    cases hx : p x with
    | true =>
      rw [if_pos rfl, List.flatMap_cons, ih (fun y hy hpy => h y (List.mem_cons_of_mem x hy) hpy)]
    | false =>
      rw [if_neg (by simp), h x (List.mem_cons_self x xs) hx, List.nil_append,
        ih (fun y hy hpy => h y (List.mem_cons_of_mem x hy) hpy)]

/-! ### Column-index lemmas -/

lemma colIdx?_lt_length {c : String} {cols : List String} {j : Nat}
    (h : colIdx? c cols = some j) : j < cols.length := by
  induction cols generalizing j with
  | nil => simp [colIdx?] at h
  | cons x xs ih =>
    rw [colIdx?] at h
    split at h
    · cases h
      simp
    · cases hx : colIdx? c xs with
      | none => rw [hx] at h; simp at h
      | some j0 =>
        rw [hx] at h
        simp only [Option.map_some'] at h
        cases h
        have := ih hx
        simp only [List.length_cons]
        omega

lemma colIdx?_getD {c : String} {cols : List String} {j : Nat}
    (h : colIdx? c cols = some j) : cols.getD j "" = c := by
  induction cols generalizing j with
  | nil => simp [colIdx?] at h
  | cons x xs ih =>
    rw [colIdx?] at h
    split at h
    · cases h
      simpa using (by assumption : x = c)
    · cases hx : colIdx? c xs with
      | none => rw [hx] at h; simp at h
      | some j0 =>
        rw [hx] at h
        simp only [Option.map_some'] at h
        cases h
        simpa using ih hx

lemma colIdx?_none_iff {c : String} {cols : List String} :
    colIdx? c cols = none ↔ c ∉ cols := by
  induction cols with
  | nil => simp [colIdx?]
  | cons x xs ih =>
    rw [colIdx?]
    by_cases hx : x = c
    · simp [hx]
    · simp [hx, ih, Option.map_eq_none', Ne.symm hx]

lemma colIdx?_of_mem {c : String} {cols : List String} (h : c ∈ cols) :
    ∃ j, colIdx? c cols = some j := by
  cases hx : colIdx? c cols with
  | none => exact absurd h (colIdx?_none_iff.mp hx)
  | some j => exact ⟨j, rfl⟩

lemma colIdx?_append_some {c : String} {l1 : List String} {j : Nat} (l2 : List String)
    (h : colIdx? c l1 = some j) : colIdx? c (l1 ++ l2) = some j := by
  induction l1 generalizing j with
  | nil => simp [colIdx?] at h
  | cons x xs ih =>
    rw [colIdx?] at h
    rw [List.cons_append, colIdx?]
    split at h
    · cases h
      rw [if_pos (by assumption)]
    · rw [if_neg (by assumption)]
      cases hx : colIdx? c xs with
      | none => rw [hx] at h; simp at h
      | some j0 =>
        rw [hx] at h
        simp only [Option.map_some'] at h
        cases h
        rw [ih hx]
        rfl

lemma colIdx?_append_none {c : String} {l1 : List String} (l2 : List String)
    (h : colIdx? c l1 = none) :
    colIdx? c (l1 ++ l2) = (colIdx? c l2).map (fun j => j + l1.length) := by
  induction l1 with
  | nil => simp
  | cons x xs ih =>
    rw [colIdx?] at h
    split at h
    · simp at h
    · rw [List.cons_append, colIdx?, if_neg (by assumption)]
      rw [Option.map_eq_none'] at h
      rw [ih h, Option.map_map]
      cases colIdx? c l2 with
      | none => rfl
      | some j =>
        simp only [Option.map_some', Function.comp_apply, List.length_cons]
        congr 1

lemma colIdx?_self_append {c : String} {l : List String} (h : c ∉ l) :
    colIdx? c (l ++ [c]) = some l.length := by
  rw [colIdx?_append_none [c] (colIdx?_none_iff.mpr h)]
  simp [colIdx?]

/-! ### Cell-lookup and column-assignment lemmas -/

lemma rowCell_nil_row (cols : List String) (c : String) : rowCell cols [] c = Cell.null := by
  cases h : colIdx? c cols <;> simp [rowCell, h]

lemma rowCell_not_mem (cols : List String) (row : List Cell) {c : String} (h : c ∉ cols) :
    rowCell cols row c = Cell.null := by
  rw [rowCell, colIdx?_none_iff.mpr h]
  rfl

lemma setColumn_rows_length (df : Table) (c : String) (v : Cell) :
    (setColumn df c v).rows.length = df.rows.length := by
  cases h : colIdx? c df.cols <;> simp [setColumn, h]

lemma setColumn_rect (df : Table) (c : String) (v : Cell) (hr : df.Rect) :
    (setColumn df c v).Rect := by
  cases h : colIdx? c df.cols with
  | none =>
    simp only [setColumn, h]
    intro r hrm
    rw [List.mem_map] at hrm
    obtain ⟨r0, h0, rfl⟩ := hrm
    simp [hr r0 h0]
  | some j =>
    simp only [setColumn, h]
    intro r hrm
    rw [List.mem_map] at hrm
    obtain ⟨r0, h0, rfl⟩ := hrm
    simp [hr r0 h0]

lemma setColumn_cols_of_mem (df : Table) {c : String} (v : Cell) (h : c ∈ df.cols) :
    (setColumn df c v).cols = df.cols := by
  obtain ⟨j, hj⟩ := colIdx?_of_mem h
  simp [setColumn, hj]

lemma mem_setColumn_cols (df : Table) (c : String) (v : Cell) :
    c ∈ (setColumn df c v).cols := by
  cases h : colIdx? c df.cols with
  | none => simp [setColumn, h]
  | some j =>
    simp only [setColumn, h]
    rw [← colIdx?_getD h]
    exact list_getD_mem _ _ _ (colIdx?_lt_length h)

lemma mem_cols_setColumn (df : Table) {c2 : String} (c : String) (v : Cell)
    (h : c2 ∈ df.cols) : c2 ∈ (setColumn df c v).cols := by
  cases hx : colIdx? c df.cols with
  | none => simp only [setColumn, hx]; exact List.mem_append_left _ h
  | some j => simpa [setColumn, hx] using h

lemma rowCell_setColumn_self (df : Table) (c : String) (v : Cell) (hr : df.Rect)
    (k : Nat) (hk : k < df.rows.length) :
    rowCell (setColumn df c v).cols ((setColumn df c v).rows.getD k []) c = v := by
  have hrlen : (df.rows.getD k []).length = df.cols.length :=
    hr _ (list_getD_mem _ _ _ hk)
  cases h : colIdx? c df.cols with
  | some j =>
    simp only [setColumn, h]
    rw [list_getD_map _ _ _ _ [] hk, rowCell, h]
    simp only [Option.map_some', Option.getD_some]
    exact list_getD_set_self _ _ _ _ (by rw [hrlen]; exact colIdx?_lt_length h)
  | none =>
    simp only [setColumn, h]
    rw [list_getD_map _ _ _ _ [] hk, rowCell,
      colIdx?_self_append (colIdx?_none_iff.mp h)]
    simp only [Option.map_some', Option.getD_some]
    rw [← hrlen]
    exact list_getD_append_len _ _ _

lemma rowCell_setColumn_ne (df : Table) (c c2 : String) (v : Cell) (hne : c2 ≠ c)
    (hr : df.Rect) (k : Nat) :
    rowCell (setColumn df c v).cols ((setColumn df c v).rows.getD k []) c2
      = rowCell df.cols (df.rows.getD k []) c2 := by
  by_cases hk : k < df.rows.length
  · have hrlen : (df.rows.getD k []).length = df.cols.length :=
      hr _ (list_getD_mem _ _ _ hk)
    cases h : colIdx? c df.cols with
    | some j =>
      simp only [setColumn, h]
      rw [list_getD_map _ _ _ _ [] hk]
      cases h2 : colIdx? c2 df.cols with
      | none => simp [rowCell, h2]
      | some j2 =>
        have hjne : j ≠ j2 := by
          intro e
          subst e
          exact hne (by rw [← colIdx?_getD h2, colIdx?_getD h])
        rw [rowCell, h2, rowCell, h2]
        simp only [Option.map_some', Option.getD_some]
        exact list_getD_set_ne _ _ _ _ _ hjne
    | none =>
      simp only [setColumn, h]
      rw [list_getD_map _ _ _ _ [] hk]
      cases h2 : colIdx? c2 df.cols with
      | none =>
        have h2' : colIdx? c2 (df.cols ++ [c]) = none := by
          rw [colIdx?_append_none [c] h2]
          simp [colIdx?, Ne.symm hne]
        simp [rowCell, h2, h2']
      | some j2 =>
        rw [rowCell, colIdx?_append_some [c] h2, rowCell, h2]
        simp only [Option.map_some', Option.getD_some]
        exact list_getD_append_left _ _ _ _ (by rw [hrlen]; exact colIdx?_lt_length h2)
  · have hk2 : ¬ k < (setColumn df c v).rows.length := by
      rw [setColumn_rows_length]
      exact hk
    rw [list_getD_default _ _ _ hk, list_getD_default _ _ _ hk2,
      rowCell_nil_row, rowCell_nil_row]

/-! ### Normalizer and tagger lemmas -/

lemma normalizeTable_cols (df : Table) : (normalizeTable df).cols = df.cols := by
  unfold normalizeTable
  split
  · split <;> rfl
  · rfl

lemma normalizeTable_rect (df : Table) (hr : df.Rect) : (normalizeTable df).Rect := by
  unfold normalizeTable
  split
  · split
    · intro r hrm
      exact hr r (List.mem_of_mem_tail hrm)
    · exact hr
  · exact hr

lemma tagTable_rows_length (df : Table) (fileNm sheetNm : String) :
    (tagTable df fileNm sheetNm).rows.length = df.rows.length := by
  rw [tagTable, setColumn_rows_length, setColumn_rows_length]

lemma tagTable_rect (df : Table) (fileNm sheetNm : String) (hr : df.Rect) :
    (tagTable df fileNm sheetNm).Rect :=
  setColumn_rect _ _ _ (setColumn_rect _ _ _ hr)

lemma tagTable_mem_source (df : Table) (fileNm sheetNm : String) :
    "source_file" ∈ (tagTable df fileNm sheetNm).cols :=
  mem_cols_setColumn _ _ _ (mem_setColumn_cols df _ _)

lemma tagTable_mem_sheet (df : Table) (fileNm sheetNm : String) :
    "sheet_name" ∈ (tagTable df fileNm sheetNm).cols :=
  mem_setColumn_cols _ _ _

lemma tagTable_source_cell (df : Table) (fileNm sheetNm : String) (hr : df.Rect)
    (k : Nat) (hk : k < df.rows.length) :
    rowCell (tagTable df fileNm sheetNm).cols ((tagTable df fileNm sheetNm).rows.getD k [])
      "source_file" = Cell.str fileNm := by
  rw [tagTable,
    rowCell_setColumn_ne _ _ _ _ (by decide) (setColumn_rect _ _ _ hr) k]
  exact rowCell_setColumn_self df _ _ hr k hk

lemma tagTable_sheet_cell (df : Table) (fileNm sheetNm : String) (hr : df.Rect)
    (k : Nat) (hk : k < df.rows.length) :
    rowCell (tagTable df fileNm sheetNm).cols ((tagTable df fileNm sheetNm).rows.getD k [])
      "sheet_name" = Cell.str sheetNm := by
  rw [tagTable]
  exact rowCell_setColumn_self _ _ _ (setColumn_rect _ _ _ hr) k
    (by rw [setColumn_rows_length]; exact hk)

/-! ### Column-union, alignment and concatenation lemmas -/

lemma mem_addCols {c : String} (acc cs : List String) :
    c ∈ addCols acc cs ↔ c ∈ acc ∨ c ∈ cs := by
  unfold addCols
  rw [List.mem_append]
  constructor
  · rintro (h | h)
    · exact Or.inl h
    · exact Or.inr (List.mem_of_mem_filter h)
  · rintro (h | h)
    · exact Or.inl h
    · by_cases ha : c ∈ acc
      · exact Or.inl ha
      · exact Or.inr (List.mem_filter.mpr ⟨h, by simpa using ha⟩)

lemma subset_unionColsAux (dfs : List Table) (acc : List String) :
    acc ⊆ unionColsAux acc dfs := by
  induction dfs generalizing acc with
  | nil => exact fun _ h => h
  | cons df rest ih =>
    intro c hc
    rw [unionColsAux]
    exact ih (addCols acc df.cols) ((mem_addCols _ _).mpr (Or.inl hc))

lemma mem_unionColsAux {t : Table} {dfs : List Table} (ht : t ∈ dfs) {c : String}
    (hc : c ∈ t.cols) (acc : List String) : c ∈ unionColsAux acc dfs := by
  induction dfs generalizing acc with
  | nil => cases ht
  | cons df rest ih =>
    rw [unionColsAux]
    rcases List.mem_cons.mp ht with h | h
    · subst h
      exact subset_unionColsAux rest _ ((mem_addCols _ _).mpr (Or.inr hc))
    · exact ih h _

lemma mem_unionCols {t : Table} {dfs : List Table} (ht : t ∈ dfs) {c : String}
    (hc : c ∈ t.cols) : c ∈ unionCols dfs :=
  mem_unionColsAux ht hc []

lemma rowCell_alignRow (srcCols : List String) (row : List Cell) (allCols : List String)
    {c : String} (h : c ∈ allCols) :
    rowCell allCols (alignRow srcCols row allCols) c = rowCell srcCols row c := by
  obtain ⟨j, hj⟩ := colIdx?_of_mem h
  rw [rowCell, hj]
  simp only [Option.map_some', Option.getD_some, alignRow]
  rw [list_getD_map _ _ _ _ "" (colIdx?_lt_length hj), colIdx?_getD hj]

lemma concat_rows_mem {dfs : List Table} {row : List Cell}
    (h : row ∈ (concatTables dfs).rows) :
    ∃ t ∈ dfs, ∃ k, k < t.rows.length
      ∧ row = alignRow t.cols (t.rows.getD k []) (unionCols dfs) := by
  simp only [concatTables] at h
  rw [List.mem_flatMap] at h
  obtain ⟨t, ht, hrow⟩ := h
  rw [List.mem_map] at hrow
  obtain ⟨r, hr, rfl⟩ := hrow
  obtain ⟨k, hk, hgd⟩ := list_mem_getD [] hr
  exact ⟨t, ht, k, hk, by rw [hgd]⟩

/-! ### Pipeline lemmas -/

lemma concatTables_nil : concatTables [] = Table.mk [] [] := rfl

lemma loadExcelFiles_eq_concat (fsys : Fs) (pfx : String) (s e : Nat) :
    loadExcelFiles fsys pfx s e = concatTables (loadedTables fsys pfx s e) := by
  simp only [loadExcelFiles]
  by_cases h : (loadedTables fsys pfx s e).isEmpty
  · rw [if_pos h]
    rw [List.isEmpty_iff] at h
    rw [h, concatTables_nil]
  · rw [if_neg h]

lemma parseAll_ok_mem {sheets : List (String × SheetResult)} {l : List (String × Table)}
    (h : parseAll sheets = Except.ok l) :
    ∀ p ∈ l, (p.1, SheetResult.parsed p.2) ∈ sheets := by
  induction sheets generalizing l with
  | nil =>
    intro p hp
    simp only [parseAll] at h
    cases h
    cases hp
  | cons q rest ih =>
    intro p hp
    obtain ⟨sn, sr⟩ := q
    cases sr with
    | parseFail => simp [parseAll] at h
    | parsed t =>
      rw [parseAll] at h
      cases hr : parseAll rest with
      | error e => rw [hr] at h; cases h
      | ok l0 =>
        rw [hr] at h
        simp only [Except.ok.injEq] at h
        subst h
        rcases List.mem_cons.mp hp with h | h
        · subst h
          exact List.mem_cons_self _ _
        · exact List.mem_cons_of_mem _ (ih hr p h)

lemma lookupFile_opened {fsys : Fs} {fn : String} {sheets : List (String × SheetResult)}
    (h : lookupFile fsys fn = FileData.opened sheets) :
    (fn, FileData.opened sheets) ∈ fsys := by
  unfold lookupFile at h
  cases hf : fsys.find? (fun p => p.1 == fn) with
  | none => rw [hf] at h; cases h
  | some p =>
    rw [hf] at h
    have hm := List.mem_of_find?_eq_some hf
    have hp : p.1 = fn := by simpa using List.find?_some hf
    obtain ⟨a, b⟩ := p
    simp only at h hp
    subst h
    subst hp
    exact hm

lemma processFile_mem {fsys : Fs} {pfx : String} {i : Nat} {t : Table}
    (h : t ∈ processFile fsys pfx i) :
    ∃ sheets parsedSheets sn t0,
      lookupFile fsys (fileName pfx i) = FileData.opened sheets
      ∧ parseAll sheets = Except.ok parsedSheets
      ∧ (sn, t0) ∈ parsedSheets
      ∧ t = tagTable (normalizeTable t0) (fileName pfx i) sn := by
  unfold processFile at h
  cases hL : lookupFile fsys (fileName pfx i) with
  | openFail => rw [hL] at h; cases h
  | opened sheets =>
    rw [hL] at h
    simp only at h
    cases hP : parseAll sheets with
    | error e => rw [hP] at h; cases h
    | ok ps =>
      rw [hP] at h
      simp only at h
      rw [List.mem_map] at h
      obtain ⟨p, hp, rfl⟩ := h
      exact ⟨sheets, ps, p.1, p.2, rfl, hP, by simpa using hp, rfl⟩

lemma fileName_length (pfx : String) (i : Nat) :
    (fileName pfx i).length = pfx.length + (pad3 i).length + 5 := by
  rw [fileName, String.length_append, String.length_append]
  rfl

lemma fileName_ne_empty (pfx : String) (i : Nat) : fileName pfx i ≠ "" := by
  intro h
  have h2 : (fileName pfx i).length = 0 := by rw [h]; rfl
  rw [fileName_length] at h2
  omega

/-! ### Claim C3 -/

/-- C3: for every non-empty loaded table containing a column named `CA`,
if the `CA` value on the first data row folds (strip + lower) to `"deg"`,
exactly the original first row is removed and the remaining rows are
reindexed contiguously from zero (in this model the row index is the list
position, so `rows.tail` is exactly that reindexed remainder, and at most
one row is removed no matter what later rows hold); if the folded value is
not `"deg"`, the table is unchanged. -/
theorem units_row_removal_CA (df : Table) (h1 : df.rows ≠ []) (h2 : "CA" ∈ df.cols) :
    (caFirstFolded df = "deg" →
      (normalizeTable df).rows = df.rows.tail
      ∧ (normalizeTable df).rows.length + 1 = df.rows.length
      ∧ (normalizeTable df).cols = df.cols)
    ∧ (caFirstFolded df ≠ "deg" → normalizeTable df = df) := by
  constructor
  · intro hdeg
    unfold caFirstFolded at hdeg
    unfold normalizeTable
    rw [if_pos ⟨h1, h2⟩, if_pos hdeg]
    refine ⟨rfl, ?_, rfl⟩
    cases hr : df.rows with
    | nil => exact absurd hr h1
    | cons r rest => simp
  · intro hne
    unfold caFirstFolded at hne
    unfold normalizeTable
    rw [if_pos ⟨h1, h2⟩, if_neg hne]

def tC3 : Table := Table.mk ["CA", "X"] [[Cell.str "Deg ", Cell.int 0], [Cell.int 10, Cell.int 20]]

theorem units_row_removal_CA_wit :
    tC3.rows ≠ [] ∧ "CA" ∈ tC3.cols ∧ caFirstFolded tC3 = "deg"
    ∧ (normalizeTable tC3).rows = tC3.rows.tail
    ∧ (normalizeTable tC3).rows.length + 1 = tC3.rows.length :=
  ⟨by decide, by decide, by decide,
    ((units_row_removal_CA tC3 (by decide) (by decide)).1 (by decide)).1,
    ((units_row_removal_CA tC3 (by decide) (by decide)).1 (by decide)).2.1⟩

/-! ### Claim C2 -/

def tC2 : Table := Table.mk ["X", "Y"] [[Cell.str " Deg ", Cell.int 1], [Cell.int 2, Cell.int 3]]

/-- C2 counterexample: `tC2` has no `CA` column and its cell at position
(0,0) is the string `" Deg "`, which folds to `"deg"`; the claimed
fallback policy would drop the first row, but the code (lines 58-63) has
no fallback branch at all and leaves the table unchanged. -/
theorem fallback_policy_cex :
    "CA" ∉ tC2.cols
    ∧ (tC2.rows.getD 0 []).getD 0 Cell.null = Cell.str " Deg "
    ∧ pyLower (pyStrip " Deg ") = "deg"
    ∧ normalizeTable tC2 = tC2
    ∧ ¬ (normalizeTable tC2).rows = tC2.rows.tail := by decide

/-- C2 amended: for every loaded table that has no column named `CA`, no
fallback policy is applied: the Normalizer removes no row and leaves the
table unchanged, whatever the cell at position (0,0) holds. -/
theorem no_fallback_without_CA (df : Table) (h : "CA" ∉ df.cols) :
    normalizeTable df = df := by
  unfold normalizeTable
  rw [if_neg (fun hc => h hc.2)]

theorem no_fallback_without_CA_wit :
    "CA" ∉ tC2.cols ∧ normalizeTable tC2 = tC2 :=
  ⟨by decide, no_fallback_without_CA tC2 (by decide)⟩

/-! ### Claim C9 -/

/-- C9: if no table is successfully loaded (the concatenation input is
empty), the result is the well-formed empty table: zero rows and zero
columns (lines 72-77, the `pd.DataFrame()` branch). -/
theorem empty_input_empty_table (fsys : Fs) (pfx : String) (s e : Nat)
    (h : loadedTables fsys pfx s e = []) :
    loadExcelFiles fsys pfx s e = Table.mk [] [] := by
  simp only [loadExcelFiles]
  rw [h]
  rfl

theorem empty_input_empty_table_wit :
    loadedTables [] "Traces-" 1 3 = []
    ∧ (loadExcelFiles [] "Traces-" 1 3).cols = []
    ∧ (loadExcelFiles [] "Traces-" 1 3).rows = [] := by
  have h := empty_input_empty_table [] "Traces-" 1 3 (by decide)
  exact ⟨by decide, by rw [h], by rw [h]⟩

/-! ### Claim C4 -/

/-- The number of excluded indices falling inside `[s, e]`. -/
def countExcludedIn (s e : Nat) : Nat :=
  (((List.range (e + 1 - s)).map (fun k => s + k)).filter
    (fun i => decide (i ∈ excludedIndices))).length

/-- C4: for `start ≤ end` the enumerator yields exactly
`end - start + 1 - |excluded ∩ [start, end]|` candidates (stated
additively, which is equivalent since the excluded count is at most the
interval size), strictly ascending by index, each named
`prefix + zero_pad(i, 3) + ".xlsx"`; excluded indices (15 in the reference
behaviour) are never attempted; an empty range yields an empty sequence. -/
theorem enumerator_spec (pfx : String) (s e : Nat) :
    (s ≤ e → (candidateIndices s e).length + countExcludedIn s e = e - s + 1)
    ∧ (candidateIndices s e).Pairwise (fun i j => i < j)
    ∧ candidateFiles pfx s e = (candidateIndices s e).map (fun i => pfx ++ pad3 i ++ ".xlsx")
    ∧ (∀ i ∈ candidateIndices s e, i ∉ excludedIndices)
    ∧ (e < s → candidateIndices s e = []) := by
  refine ⟨?_, ?_, rfl, ?_, ?_⟩
  · intro hse
    have key := length_filter_add_not ((List.range (e + 1 - s)).map (fun k => s + k))
      (fun i => decide (i ∉ excludedIndices))
    have e2 : (fun i : Nat => !(decide (i ∉ excludedIndices)))
        = (fun i => decide (i ∈ excludedIndices)) := by
      funext i
      by_cases h : i ∈ excludedIndices <;> simp [h]
    rw [e2] at key
    unfold candidateIndices countExcludedIn
    rw [key, List.length_map, List.length_range]
    omega
  · exact List.Pairwise.filter _ ((List.pairwise_lt_range _).map _ (fun a b h => by omega))
  · intro i hi
    rw [candidateIndices, List.mem_filter] at hi
    simpa using hi.2
  · intro hlt
    have h0 : e + 1 - s = 0 := by omega
    rw [candidateIndices, h0]
    rfl

theorem enumerator_spec_wit :
    (1 : Nat) ≤ 20
    ∧ (candidateIndices 1 20).length + countExcludedIn 1 20 = 20 - 1 + 1
    ∧ (candidateIndices 1 20).length = 19
    ∧ countExcludedIn 1 20 = 1
    ∧ (15 : Nat) ∉ candidateIndices 1 20 :=
  ⟨by decide, (enumerator_spec "Traces-" 1 20).1 (by decide), by decide, by decide, by decide⟩

/-! ### Claim C7 -/

/-- C7: a candidate file that cannot be opened (missing, corrupt or
unsupported — all raise in `pd.ExcelFile`, lines 40-44) contributes no
table at all, and the run continues exactly as if the failing candidate
were not in the enumeration: the loaded-tables sequence (and hence the
Combined Table) is the concatenation over the remaining candidates, so
zero rows are attributable to the failing file.  The model is total, so
the run always completes. -/
theorem file_open_failure_skipped (fsys : Fs) (pfx : String) (s e i : Nat)
    (h : lookupFile fsys (fileName pfx i) = FileData.openFail) :
    processFile fsys pfx i = []
    ∧ loadedTables fsys pfx s e
        = ((candidateIndices s e).filter (fun j => decide (j ≠ i))).flatMap
            (processFile fsys pfx) := by
  have hpf : processFile fsys pfx i = [] := by
    unfold processFile
    rw [h]
  refine ⟨hpf, ?_⟩
  unfold loadedTables
  apply flatMap_eq_filter_flatMap
  intro x hx hpx
  have hxi : x = i := by simpa using hpx
  rw [hxi, hpf]

def fs7 : Fs :=
  [("T-002.xlsx", FileData.opened [("S", SheetResult.parsed (Table.mk ["A"] [[Cell.int 5]]))])]

theorem file_open_failure_skipped_wit :
    lookupFile fs7 (fileName "T-" 1) = FileData.openFail
    ∧ processFile fs7 "T-" 1 = []
    ∧ loadedTables fs7 "T-" 1 2
        = ((candidateIndices 1 2).filter (fun j => decide (j ≠ 1))).flatMap
            (processFile fs7 "T-")
    ∧ (loadExcelFiles fs7 "T-" 1 2).rows.length = 1 := by
  have h := file_open_failure_skipped fs7 "T-" 1 2 1 (by decide)
  exact ⟨by decide, h.1, h.2, by decide⟩

/-! ### Claim C1 -/

def tC1 : Table := Table.mk ["A"] [[Cell.int 1]]

def fs1 : Fs :=
  [("Traces-001.xlsx",
    FileData.opened [("S1", SheetResult.parseFail), ("S2", SheetResult.parsed tC1)])]

/-- C1 counterexample: the workbook `Traces-001.xlsx` opens and its second
worksheet `S2` parses to a one-row table, but because worksheet `S1` fails
to parse, `xl.parse(sheet_name=None)` (lines 46-51) raises and the code
skips the whole file: the combined table ends up with no rows, so the
sibling worksheet `S2` did not contribute its row, contrary to the claim. -/
theorem sheet_failure_cex :
    lookupFile fs1 (fileName "Traces-" 1)
      = FileData.opened [("S1", SheetResult.parseFail), ("S2", SheetResult.parsed tC1)]
    ∧ tC1.rows.length = 1
    ∧ parseAll [("S1", SheetResult.parseFail), ("S2", SheetResult.parsed tC1)]
        = Except.error ()
    ∧ (loadExcelFiles fs1 "Traces-" 1 1).rows = [] :=
  ⟨by decide, by decide, rfl, by decide⟩

/-- C1 amended: when a workbook opens but any of its worksheets fails to
parse, the single `xl.parse(sheet_name=None)` call fails and the whole
file is skipped (after a log entry): no worksheet of that file — failing
or sibling — contributes anything, and the run continues exactly as if
the file were not among the candidates. -/
theorem sheet_parse_failure_file_skipped (fsys : Fs) (pfx : String) (s e i : Nat)
    (sheets : List (String × SheetResult))
    (h1 : lookupFile fsys (fileName pfx i) = FileData.opened sheets)
    (h2 : parseAll sheets = Except.error ()) :
    processFile fsys pfx i = []
    ∧ loadedTables fsys pfx s e
        = ((candidateIndices s e).filter (fun j => decide (j ≠ i))).flatMap
            (processFile fsys pfx) := by
  have hpf : processFile fsys pfx i = [] := by
    unfold processFile
    rw [h1]
    simp only
    rw [h2]
  refine ⟨hpf, ?_⟩
  unfold loadedTables
  apply flatMap_eq_filter_flatMap
  intro x hx hpx
  have hxi : x = i := by simpa using hpx
  rw [hxi, hpf]

theorem sheet_parse_failure_file_skipped_wit :
    processFile fs1 "Traces-" 1 = []
    ∧ loadedTables fs1 "Traces-" 1 1
        = ((candidateIndices 1 1).filter (fun j => decide (j ≠ 1))).flatMap
            (processFile fs1 "Traces-") := by
  have h := sheet_parse_failure_file_skipped fs1 "Traces-" 1 1 1
    [("S1", SheetResult.parseFail), ("S2", SheetResult.parsed tC1)] (by decide) rfl
  exact ⟨h.1, h.2⟩

/-! ### Claim C5 -/

/-- C5: the Combined Table's row count is the sum of the row counts of the
successfully loaded-and-normalized tables, and its rows are exactly the
concatenation, in production order, of those tables' rows (each reindexed
onto the united column axis).  `loadedTables` enumerates file indices
ascending (claim C4's order), worksheets in workbook order within a file,
and rows in original order within a worksheet, so the concatenation order
is the claimed one. -/
theorem combined_row_count_and_order (fsys : Fs) (pfx : String) (s e : Nat) :
    (loadExcelFiles fsys pfx s e).rows.length
        = ((loadedTables fsys pfx s e).map (fun t => t.rows.length)).sum
    ∧ (loadExcelFiles fsys pfx s e).rows
        = (loadedTables fsys pfx s e).flatMap
            (fun t => t.rows.map
              (fun r => alignRow t.cols r (unionCols (loadedTables fsys pfx s e)))) := by
  rw [loadExcelFiles_eq_concat]
  refine ⟨?_, rfl⟩
  simp only [concatTables]
  rw [List.length_flatMap]
  congr 1
  apply List.map_congr_left
  intro t ht
  simp

/-! ### Claim C6 -/

/-- C6: concatenating two normalized tables with column lists `[a, b]` and
`[b, c]` (distinct names) yields a Combined Table whose column axis is the
union `[a, b, c]`; the rows coming from the first table (the first
`t1.rows.length` rows) hold a missing/null cell in column `c`, and the
rows coming from the second table hold a missing/null cell in column `a`. -/
theorem concat_union_nulls (t1 t2 : Table) (a b c : String)
    (hab : a ≠ b) (hac : a ≠ c) (hbc : b ≠ c)
    (h1 : t1.cols = [a, b]) (h2 : t2.cols = [b, c]) :
    (concatTables [t1, t2]).cols = [a, b, c]
    ∧ (concatTables [t1, t2]).rows.length = t1.rows.length + t2.rows.length
    ∧ (∀ row ∈ (concatTables [t1, t2]).rows.take t1.rows.length,
        rowCell (concatTables [t1, t2]).cols row c = Cell.null)
    ∧ (∀ row ∈ (concatTables [t1, t2]).rows.drop t1.rows.length,
        rowCell (concatTables [t1, t2]).cols row a = Cell.null) := by
  have hcols : unionCols [t1, t2] = [a, b, c] := by
    have s1 : addCols [] t1.cols = [a, b] := by
      simp [addCols, h1]
    have s2 : addCols [a, b] t2.cols = [a, b, c] := by
      simp [addCols, h2, List.filter_cons, List.mem_cons, hbc, Ne.symm hac, Ne.symm hbc]
    simp only [unionCols, unionColsAux, s1, s2]
  have hrows : (concatTables [t1, t2]).rows
      = t1.rows.map (fun r => alignRow t1.cols r (unionCols [t1, t2]))
        ++ t2.rows.map (fun r => alignRow t2.cols r (unionCols [t1, t2])) := by
    simp [concatTables]
  have hcolsT : (concatTables [t1, t2]).cols = [a, b, c] := hcols
  refine ⟨hcolsT, ?_, ?_, ?_⟩
  · rw [hrows]
    simp
  · intro row hrow
    rw [hrows, List.take_left' (List.length_map _ _)] at hrow
    rw [List.mem_map] at hrow
    obtain ⟨r, hr, rfl⟩ := hrow
    rw [hcolsT, ← hcols,
      rowCell_alignRow _ _ _ (by rw [hcols]; simp),
      rowCell_not_mem _ _ (by rw [h1]; simp [Ne.symm hac, Ne.symm hbc])]
  · intro row hrow
    rw [hrows, List.drop_left' (List.length_map _ _)] at hrow
    rw [List.mem_map] at hrow
    obtain ⟨r, hr, rfl⟩ := hrow
    rw [hcolsT, ← hcols,
      rowCell_alignRow _ _ _ (by rw [hcols]; simp),
      rowCell_not_mem _ _ (by rw [h2]; simp [hab, hac])]

def t6a : Table := Table.mk ["A", "B"] [[Cell.int 1, Cell.int 2]]

def t6b : Table := Table.mk ["B", "C"] [[Cell.int 3, Cell.int 4]]

theorem concat_union_nulls_wit :
    (concatTables [t6a, t6b]).cols = ["A", "B", "C"]
    ∧ (concatTables [t6a, t6b]).rows.length = 2
    ∧ rowCell (concatTables [t6a, t6b]).cols ((concatTables [t6a, t6b]).rows.getD 0 [])
        "C" = Cell.null
    ∧ rowCell (concatTables [t6a, t6b]).cols ((concatTables [t6a, t6b]).rows.getD 1 [])
        "A" = Cell.null := by
  have h := concat_union_nulls t6a t6b "A" "B" "C"
    (by decide) (by decide) (by decide) rfl rfl
  exact ⟨h.1, by decide, by decide, by decide⟩

/-! ### Claim C10 -/

/-- C10: when a source worksheet already has `source_file` and `sheet_name`
columns, the tagging assignments (lines 66-67) overwrite them in place —
the column axis is unchanged and, in every row, whatever the original
column held is replaced by the provenance value; nothing is preserved and
no error is raised (the model is total). -/
theorem provenance_overwrites_existing (df : Table) (fileNm sheetNm : String)
    (hr : df.Rect) (h1 : "source_file" ∈ df.cols) (h2 : "sheet_name" ∈ df.cols) :
    (tagTable df fileNm sheetNm).cols = df.cols
    ∧ (tagTable df fileNm sheetNm).rows.length = df.rows.length
    ∧ ∀ k, k < df.rows.length →
        rowCell (tagTable df fileNm sheetNm).cols
          ((tagTable df fileNm sheetNm).rows.getD k []) "source_file" = Cell.str fileNm
        ∧ rowCell (tagTable df fileNm sheetNm).cols
          ((tagTable df fileNm sheetNm).rows.getD k []) "sheet_name" = Cell.str sheetNm := by
  have hin : (setColumn df "source_file" (Cell.str fileNm)).cols = df.cols :=
    setColumn_cols_of_mem _ _ h1
  refine ⟨?_, tagTable_rows_length df fileNm sheetNm, ?_⟩
  · rw [tagTable, setColumn_cols_of_mem _ _ (by rw [hin]; exact h2), hin]
  · intro k hk
    exact ⟨tagTable_source_cell df _ _ hr k hk, tagTable_sheet_cell df _ _ hr k hk⟩

def t10 : Table :=
  Table.mk ["source_file", "sheet_name", "V"]
    [[Cell.str "old1", Cell.str "old2", Cell.int 9]]

theorem provenance_overwrites_existing_wit :
    t10.Rect ∧ "source_file" ∈ t10.cols ∧ "sheet_name" ∈ t10.cols
    ∧ (tagTable t10 "f.xlsx" "S").cols = t10.cols
    ∧ rowCell (tagTable t10 "f.xlsx" "S").cols
        ((tagTable t10 "f.xlsx" "S").rows.getD 0 []) "source_file" = Cell.str "f.xlsx"
    ∧ rowCell (tagTable t10 "f.xlsx" "S").cols
        ((tagTable t10 "f.xlsx" "S").rows.getD 0 []) "sheet_name" = Cell.str "S" := by
  have h := provenance_overwrites_existing t10 "f.xlsx" "S" (by decide) (by decide) (by decide)
  exact ⟨by decide, by decide, by decide, h.1, (h.2.2 0 (by decide)).1, (h.2.2 0 (by decide)).2⟩

/-! ### Claim C8 -/

/-- Well-formedness of one worksheet entry: a non-empty worksheet name
(the workbook format guarantees one) and, when it parses, a rectangular
table (pandas guarantees rectangularity). -/
def SheetEntryOk : String × SheetResult → Prop
  | (sn, SheetResult.parsed t) => sn ≠ "" ∧ t.Rect
  | (sn, SheetResult.parseFail) => sn ≠ ""

instance sheetEntryOkDec : (q : String × SheetResult) → Decidable (SheetEntryOk q)
  | (sn, SheetResult.parsed t) => inferInstanceAs (Decidable (sn ≠ "" ∧ t.Rect))
  | (sn, SheetResult.parseFail) => inferInstanceAs (Decidable (sn ≠ ""))

/-- Well-formedness of one directory entry. -/
def FileEntryOk : FileData → Prop
  | FileData.openFail => True
  | FileData.opened sheets => ∀ q ∈ sheets, SheetEntryOk q

instance fileEntryOkDec : (fd : FileData) → Decidable (FileEntryOk fd)
  | FileData.openFail => inferInstanceAs (Decidable True)
  | FileData.opened sheets => List.decidableBAll _ sheets

/-- C8: the Normalizer & Tagger stage is total and graceful — an empty
table, or one lacking a `CA` column (which subsumes a table with no
columns at all), undergoes no row removal — the two provenance columns are
always present after tagging, and every row of the Combined Table carries
`source_file` equal to the originating file's name (never empty, as it
ends in ".xlsx") and `sheet_name` equal to the originating worksheet's
name (non-empty for well-formed workbooks). -/
theorem normalizer_total_and_provenance (fsys : Fs) (pfx : String) (s e : Nat)
    (hwf : ∀ p ∈ fsys, FileEntryOk p.2) :
    (∀ df : Table, df.rows = [] ∨ "CA" ∉ df.cols → normalizeTable df = df)
    ∧ (∀ (df : Table) (fileNm sheetNm : String),
        "source_file" ∈ (tagTable df fileNm sheetNm).cols
        ∧ "sheet_name" ∈ (tagTable df fileNm sheetNm).cols)
    ∧ ∀ row ∈ (loadExcelFiles fsys pfx s e).rows,
        ∃ i sheets sheetNm,
          i ∈ candidateIndices s e
          ∧ lookupFile fsys (fileName pfx i) = FileData.opened sheets
          ∧ sheetNm ∈ sheets.map Prod.fst
          ∧ rowCell (loadExcelFiles fsys pfx s e).cols row "source_file"
              = Cell.str (fileName pfx i)
          ∧ rowCell (loadExcelFiles fsys pfx s e).cols row "sheet_name"
              = Cell.str sheetNm
          ∧ fileName pfx i ≠ "" ∧ sheetNm ≠ "" := by
  refine ⟨?_, ?_, ?_⟩
  · intro df hd
    rcases hd with hd | hd
    · unfold normalizeTable
      rw [if_neg (fun hc => hc.1 hd)]
    · unfold normalizeTable
      rw [if_neg (fun hc => hd hc.2)]
  · intro df fileNm sheetNm
    exact ⟨tagTable_mem_source df fileNm sheetNm, tagTable_mem_sheet df fileNm sheetNm⟩
  · intro row hrow
    rw [loadExcelFiles_eq_concat] at hrow
    rw [loadExcelFiles_eq_concat]
    obtain ⟨t, ht, k, hk, hrw⟩ := concat_rows_mem hrow
    unfold loadedTables at ht
    obtain ⟨i, hi, hpt⟩ := List.mem_flatMap.mp ht
    obtain ⟨sheets, ps, sn, t0, hL, hP, hmem, rfl⟩ := processFile_mem hpt
    have hfs : ∀ q ∈ sheets, SheetEntryOk q := hwf _ (lookupFile_opened hL)
    have hq : sn ≠ "" ∧ t0.Rect := hfs (sn, SheetResult.parsed t0) (parseAll_ok_mem hP (sn, t0) hmem)
    have hrect : (normalizeTable t0).Rect := normalizeTable_rect t0 hq.2
    have hkl : k < (normalizeTable t0).rows.length := by
      rwa [tagTable_rows_length] at hk
    refine ⟨i, sheets, sn, hi, hL, ?_, ?_, ?_, fileName_ne_empty pfx i, hq.1⟩
    · exact List.mem_map.mpr ⟨(sn, SheetResult.parsed t0), parseAll_ok_mem hP (sn, t0) hmem, rfl⟩
    · rw [hrw]
      simp only [concatTables]
      rw [rowCell_alignRow _ _ _
        (mem_unionCols (by rwa [loadedTables]) (tagTable_mem_source _ _ _))]
      exact tagTable_source_cell _ _ _ hrect k hkl
    · rw [hrw]
      simp only [concatTables]
      rw [rowCell_alignRow _ _ _
        (mem_unionCols (by rwa [loadedTables]) (tagTable_mem_sheet _ _ _))]
      exact tagTable_sheet_cell _ _ _ hrect k hkl

def fs8 : Fs :=
  [("P-001.xlsx",
    FileData.opened [("Sheet1", SheetResult.parsed (Table.mk ["CA"] [[Cell.str "deg"], [Cell.int 3]]))])]

theorem normalizer_total_and_provenance_wit :
    (∀ p ∈ fs8, FileEntryOk p.2)
    ∧ (∀ row ∈ (loadExcelFiles fs8 "P-" 1 1).rows,
        ∃ i sheets sheetNm,
          i ∈ candidateIndices 1 1
          ∧ lookupFile fs8 (fileName "P-" i) = FileData.opened sheets
          ∧ sheetNm ∈ sheets.map Prod.fst
          ∧ rowCell (loadExcelFiles fs8 "P-" 1 1).cols row "source_file"
              = Cell.str (fileName "P-" i)
          ∧ rowCell (loadExcelFiles fs8 "P-" 1 1).cols row "sheet_name"
              = Cell.str sheetNm
          ∧ fileName "P-" i ≠ "" ∧ sheetNm ≠ "")
    ∧ (loadExcelFiles fs8 "P-" 1 1).rows.length = 1 := by
  have h := normalizer_total_and_provenance fs8 "P-" 1 1 (by decide)
  exact ⟨by decide, h.2.2, by decide⟩
